import Mathlib

/-!
Verification development for the Track2Text route-narrative generator
(`track2text.py`).  The Python source is shallowly embedded below:

* Python floats are modelled as rational numbers (`ℚ`) except for the
  haversine distance, which uses real numbers because it involves
  transcendental functions.
* The greedy downsampler and the narrative engine are parametrised over an
  abstract point type `α` and an abstract distance function
  `dist : α → α → ℚ` (respectively a distance codomain `β`); the concrete
  program instantiates these with `Point` and `haversine_m`.
* Fallible reverse-geocoding lookups are modelled as oracles
  `ℕ → Except String Address` giving, per sample index, either the address
  dictionary of the response (`data.get("address", {})`) or the exception
  message.
* The unbounded `while` loop of `sample_points` is modelled with explicit
  fuel; termination of the Python loop corresponds to `∃ fuel, … = some r`.
-/

namespace Track2Text

/-- Python truthiness of an optional string: `None` and `""` are falsy. -/
def truthy (o : Option String) : Prop := o ≠ none ∧ o ≠ some ""

instance (o : Option String) : Decidable (truthy o) :=
  inferInstanceAs (Decidable (o ≠ none ∧ o ≠ some ""))

/-- Python `a or b` on optional strings: `a` if truthy, else `b`. -/
def pyOr (a b : Option String) : Option String := if truthy a then a else b

/-- Python `int()` applied to a float: truncation toward zero. -/
def pyInt (q : ℚ) : ℤ := if 0 ≤ q then ⌊q⌋ else -⌊-q⌋

/-- Fractional digits of a rational in `[0, 1)`, most significant first;
stops at the exact expansion (fuel-bounded).  Used to model CPython float
`repr` on decimally exact values. -/
def fracDigitsAux : ℕ → ℚ → String
  | 0, _ => ""
  | fuel + 1, q =>
    if q = 0 then ""
    else
      let d : ℤ := ⌊q * 10⌋
      toString d ++ fracDigitsAux fuel (q * 10 - (d : ℚ))

/-- Model of CPython `repr` of a float (as used by `f"{value}"`), restricted
to decimally exact values: integer part, a dot, and the exact fractional
digits (or `0` if there are none). -/
def floatRepr (q : ℚ) : String :=
  let sign := if q < 0 then "-" else ""
  let a := |q|
  let ip : ℤ := ⌊a⌋
  let fr := fracDigitsAux 30 (a - (ip : ℚ))
  sign ++ toString ip ++ "." ++ (if fr = "" then "0" else fr)

/-- Model of CPython `f"{x:.2f}"` formatting: two fractional digits,
rounding half up on the magnitude (exact on representable inputs). -/
def format2dp (q : ℚ) : String :=
  let sign := if q < 0 then "-" else ""
  let a := |q|
  let n : ℤ := ⌊a * 100 + 1 / 2⌋
  let ip := n / 100
  let fr := n % 100
  sign ++ toString ip ++ "." ++ (if fr < 10 then "0" ++ toString fr else toString fr)

/-- A Python value observed in a telemetry field: an int, a float, or a
non-numeric value identified by its string representation. -/
inductive PyVal
  | pint (n : ℤ)
  | pfloat (q : ℚ)
  | pstr (s : String)

/-- Numeric payload of a `PyVal`, i.e. Python `float(value)`. -/
def PyVal.toRat : PyVal → Option ℚ
  | .pint n => some (n : ℚ)
  | .pfloat q => some q
  | .pstr _ => none

/-- Python `f"{value}"` / `str(value)` for the modelled values. -/
def PyVal.pyStr : PyVal → String
  | .pint n => toString n
  | .pfloat q => floatRepr q
  | .pstr s => s

/-- Per-field telemetry accumulator (`FieldSummary` dataclass). -/
structure FieldSummary where
  count : ℕ := 0
  numeric_count : ℕ := 0
  total : ℚ := 0
  min_value : Option ℚ := none
  max_value : Option ℚ := none
  last_value : Option String := none
  unit : Option String := none
  unique_values : Option (List String) := none

/-- `FieldSummary.add_value`: count the observation, latch the first truthy
unit, and either update the numeric statistics or record the value into the
small distinct-value set. -/
def FieldSummary.add_value (s : FieldSummary) (value : PyVal) (unit : Option String) :
    FieldSummary :=
  let s := { s with count := s.count + 1 }
  let s := if truthy unit ∧ ¬ truthy s.unit then { s with unit := unit } else s
  match value.toRat with
  | some q =>
    let s := { s with numeric_count := s.numeric_count + 1, total := s.total + q }
    let s :=
      match s.min_value with
      | none => { s with min_value := some q }
      | some m => if q < m then { s with min_value := some q } else s
    let s :=
      match s.max_value with
      | none => { s with max_value := some q }
      | some m => if m < q then { s with max_value := some q } else s
    { s with last_value := some value.pyStr }
  | none =>
    let uv := s.unique_values.getD []
    let uv := if uv.length < 5 then (if value.pyStr ∈ uv then uv else uv ++ [value.pyStr]) else uv
    { s with unique_values := some uv, last_value := some value.pyStr }

/-- Code-point comparison of strings (the order Python `sorted` uses on
`str`), implemented on character lists so it evaluates in the kernel. -/
def charListLe : List Char → List Char → Bool
  | [], _ => true
  | _ :: _, [] => false
  | a :: as, b :: bs =>
    if a.toNat < b.toNat then true
    else if b.toNat < a.toNat then false
    else charListLe as bs

/-- String comparison by code points. -/
def strLe (a b : String) : Bool := charListLe a.data b.data

/-- Insertion into a sorted list of strings. -/
def insertSorted (x : String) : List String → List String
  | [] => [x]
  | y :: ys => if strLe x y then x :: y :: ys else y :: insertSorted x ys

/-- Model of Python `sorted` on a collection of strings. -/
def sortStrings (l : List String) : List String := l.foldr insertSorted []

/-- `FieldSummary.format_value`: statistics line for more than one numeric
observation, the bare last value for exactly one, else the sorted captured
non-numeric values (with `...` when `count` exceeds the captured set), else
the last value or the empty string. -/
def FieldSummary.format_value (s : FieldSummary) : String :=
  if 1 < s.numeric_count then
    let avg := s.total / (s.numeric_count : ℚ)
    let unit := if truthy s.unit then " " ++ s.unit.getD "" else ""
    "min=" ++ (match s.min_value with | some q => floatRepr q | none => "None") ++
      ", max=" ++ (match s.max_value with | some q => floatRepr q | none => "None") ++
      ", avg=" ++ format2dp avg ++ unit
  else if s.numeric_count = 1 then
    let unit := if truthy s.unit then " " ++ s.unit.getD "" else ""
    (match s.last_value with | some v => v | none => "None") ++ unit
  else if s.unique_values.getD [] ≠ [] then
    let values := String.intercalate ", " (sortStrings (s.unique_values.getD []))
    let suffix := if s.count ≤ (s.unique_values.getD []).length then "" else "..."
    values ++ suffix
  else if truthy s.last_value then s.last_value.getD "" else ""

/-- Folding a stream of observations into a `FieldSummary`. -/
def applyAll (inputs : List (PyVal × Option String)) (s : FieldSummary) : FieldSummary :=
  inputs.foldl (fun acc vu => acc.add_value vu.1 vu.2) s

/-- The invariant of claim C10 about `FieldSummary` states. -/
def FieldSummary.Inv (s : FieldSummary) : Prop :=
  s.numeric_count ≤ s.count ∧
    (1 ≤ s.numeric_count →
      ∃ mn mx, s.min_value = some mn ∧ s.max_value = some mx ∧ mn ≤ mx) ∧
    (s.unique_values.getD []).length ≤ 5

/-- Strengthening of `FieldSummary.Inv` used for the induction: while no
numeric value has been seen, min/max are still unset. -/
def FieldSummary.StrongInv (s : FieldSummary) : Prop :=
  s.Inv ∧ (s.numeric_count = 0 → s.min_value = none ∧ s.max_value = none)

/-- A geographic point (latitude/longitude in degrees). -/
structure Point where
  lat : ℝ
  lon : ℝ

noncomputable instance : DecidableEq Point := Classical.decEq _

/-- Degrees to radians (`math.radians`). -/
noncomputable def radians (x : ℝ) : ℝ := x * (Real.pi / 180)

/-- `haversine_m`: great-circle distance in metres on a sphere of radius
6 371 000 m, exactly as computed by the source. -/
noncomputable def haversine_m (a b : Point) : ℝ :=
  let r : ℝ := 6371000
  let lat1 := radians a.lat
  let lat2 := radians b.lat
  let dlat := lat2 - lat1
  let dlon := radians (b.lon - a.lon)
  let s := Real.sin (dlat / 2) ^ 2 +
    Real.cos lat1 * Real.cos lat2 * Real.sin (dlon / 2) ^ 2
  2 * r * Real.arcsin (Real.sqrt s)

/-- Greedy scan of `downsample`: starting from the last kept point, keep a
point iff its distance from the last kept point is at least the threshold. -/
def downsampleAux {α β : Type} [LinearOrder β] (dist : α → α → β)
    (last : α) (rest : List α) (min_dist : β) : List α :=
  match rest with
  | [] => []
  | p :: ps =>
    if min_dist ≤ dist last p then p :: downsampleAux dist p ps min_dist
    else downsampleAux dist last ps min_dist

/-- `downsample`: keep the first point, greedily keep points at least
`min_dist` from the last kept one, and force-append the final input point
when the scan dropped it. -/
def downsample {α β : Type} [DecidableEq α] [LinearOrder β] (dist : α → α → β)
    (points : List α) (min_dist : β) : List α :=
  match points with
  | [] => []
  | p0 :: rest =>
    let keep := p0 :: downsampleAux dist p0 rest min_dist
    let lastPt := (p0 :: rest).getLast (List.cons_ne_nil p0 rest)
    if keep.getLast (List.cons_ne_nil p0 _) ≠ lastPt then keep ++ [lastPt] else keep

/-- The `while len(sampled) > target_max` loop of `sample_points`, with
explicit fuel: each pass rescans the original input with the threshold
multiplied by 1.5.  `none` means the fuel ran out before the loop exited. -/
def sampleLoop {α β : Type} [DecidableEq α] [LinearOrderedField β] (dist : α → α → β)
    (points : List α) (target_max : ℕ) : β → ℕ → Option (List α)
  | d, 0 =>
    if (downsample dist points d).length ≤ target_max then some (downsample dist points d)
    else none
  | d, fuel + 1 =>
    if (downsample dist points d).length ≤ target_max then some (downsample dist points d)
    else sampleLoop dist points target_max (d * (3 / 2)) fuel

/-- `sample_points`: run the adaptive loop from the configured initial
minimum spacing (default 50). -/
def sample_points {α β : Type} [DecidableEq α] [LinearOrderedField β] (dist : α → α → β)
    (points : List α) (target_max : ℕ) (min_dist : β) (fuel : ℕ) : Option (List α) :=
  sampleLoop dist points target_max min_dist fuel

/-- The concrete downsampler of the program: `downsample` with the
haversine distance on `Point`. -/
noncomputable def downsample_m (points : List Point) (min_dist : ℝ) : List Point :=
  downsample haversine_m points min_dist

/-- An address dictionary: keys mapped to string values. -/
def Address : Type := List (String × String)

/-- First value among the given keys that is present in the address
(`if key in address: return address[key]`). -/
def pickFirst (keys : List String) (address : Address) : Option String :=
  match keys with
  | [] => none
  | k :: ks =>
    match address.lookup k with
    | some v => some v
    | none => pickFirst ks address

/-- `pick_road`: road-like keys in fixed priority order. -/
def pick_road (address : Address) : Option String :=
  pickFirst ["road", "pedestrian", "cycleway", "path", "footway", "steps",
    "track", "bridleway"] address

/-- `pick_locality`: locality-like keys in fixed priority order. -/
def pick_locality (address : Address) : Option String :=
  pickFirst ["city", "town", "village", "suburb", "hamlet", "municipality"] address

/-- `pick_ortsteil`: district-like keys in fixed priority order. -/
def pick_ortsteil (address : Address) : Option String :=
  pickFirst ["neighbourhood", "quarter", "locality", "borough", "city_district",
    "district", "municipality", "isolated_dwelling"] address

/-- Total length of the path from an initial point through a list of
successors, over an abstract distance. -/
def chainLen {α : Type} (dist : α → α → ℚ) : α → List α → ℚ
  | _, [] => 0
  | q, p :: rest => dist q p + chainLen dist p rest

/-- `route_distance_m` over an abstract distance: the summed consecutive
distances along a point list (0 for fewer than two points). -/
def route_distance_m {α : Type} (dist : α → α → ℚ) : List α → ℚ
  | [] => 0
  | p :: rest => chainLen dist p rest

/-- Output language of the narrative. -/
inductive Lang
  | DE
  | EN
deriving DecidableEq

/-- Configuration of `build_description` relevant to the narrative loop. -/
structure NarrCfg where
  lang : Lang
  include_start_goal : Bool
  section_km : ℚ
  locality_zoom : ℤ

/-- Mutable narrative state threaded through the loop of
`build_description`.  `next_section_m = ⊤` models `float("inf")`. -/
structure NarrState where
  last_road : Option String
  last_locality : Option String
  last_ortsteil : Option String
  cumulative_m : ℚ
  next_section_m : WithTop ℚ
  lines : List String

/-- Localized note line appended when the per-point reverse geocode raises. -/
def failNote (lang : Lang) (exc : String) : String :=
  match lang with
  | .DE => "Hinweis: Reverse-Geocoding fehlgeschlagen (" ++ exc ++ ")."
  | .EN => "Note: reverse geocoding failed (" ++ exc ++ ")."

/-- Locality label (`Ort:` / `Place:`) followed by the value. -/
def locLabel (lang : Lang) (s : String) : String :=
  (match lang with | .DE => "Ort: " | .EN => "Place: ") ++ s

/-- District label (`Ortsteil:` / `District:`) followed by the value. -/
def ortLabel (lang : Lang) (s : String) : String :=
  (match lang with | .DE => "Ortsteil: " | .EN => "District: ") ++ s

/-- Section-marker block of the loop: build the `Section: from km N` line
(optionally refined by a coarse locality lookup whose failure is swallowed),
advance the boundary by one section length, and overwrite the last-known
locality/district with whatever was resolved. -/
def sectionPhase (cfg : NarrCfg) (sLoc : Except String Address)
    (locality ortsteil : Option String) (st : NarrState) : NarrState :=
  let km : ℤ := pyInt ((st.next_section_m.untop' 0) / 1000)
  let base := (match cfg.lang with
    | .DE => "Abschnitt: ab km "
    | .EN => "Section: from km ") ++ toString km
  let pair : Option String × Option String :=
    if cfg.locality_zoom ≠ 0 then
      match sLoc with
      | .ok la => (pyOr (pick_locality la) locality, pyOr (pick_ortsteil la) ortsteil)
      | .error _ => (locality, ortsteil)
    else (locality, ortsteil)
  let t1 :=
    if truthy pair.1 then
      base ++ (match cfg.lang with | .DE => " (Ort: " | .EN => " (Place: ") ++
        pair.1.getD "" ++ ")"
    else base
  let t2 :=
    if truthy pair.2 then
      t1 ++ (match cfg.lang with | .DE => ", Ortsteil: " | .EN => ", District: ") ++
        pair.2.getD ""
    else t1
  { st with
    lines := st.lines ++ ["- " ++ t2]
    next_section_m := st.next_section_m + ((cfg.section_km * 1000 : ℚ) : WithTop ℚ)
    last_locality := pair.1
    last_ortsteil := pair.2 }

/-- The `Start` line: road when truthy, then a parenthetical with the
locality and/or district of the point's own fine lookup when either is
truthy. -/
def startEntry (lang : Lang) (road locality ortsteil : Option String) : String :=
  let e1 := "- Start" ++ (if truthy road then ": " ++ road.getD "" else "")
  if truthy locality ∨ truthy ortsteil then
    e1 ++ " (" ++ (if truthy locality then locLabel lang (locality.getD "") else "") ++
      (if truthy ortsteil then
        (if truthy locality then ", " else "") ++ ortLabel lang (ortsteil.getD "")
      else "") ++ ")"
  else e1

/-- Index-0 block of the loop: seed the last-known road/locality/district
from the fine lookup; when start/finish events are enabled, optionally
refine the last-known locality/district by a coarse lookup (failure
swallowed) and emit the `Start` line. -/
def startPhase (cfg : NarrCfg) (startLoc : Except String Address)
    (road locality ortsteil : Option String) (st : NarrState) : NarrState :=
  let st1 := { st with
    last_road := if truthy road then road else st.last_road
    last_locality := if truthy locality then locality else st.last_locality
    last_ortsteil := if truthy ortsteil then ortsteil else st.last_ortsteil }
  if cfg.include_start_goal then
    let st2 :=
      if cfg.locality_zoom ≠ 0 then
        match startLoc with
        | .ok la =>
          { st1 with
            last_locality := pyOr (pick_locality la) st1.last_locality
            last_ortsteil := pyOr (pick_ortsteil la) st1.last_ortsteil }
        | .error _ => st1
      else st1
    { st2 with lines := st2.lines ++ [startEntry cfg.lang road locality ortsteil] }
  else st1

/-- The `Road change` line, with a parenthetical listing exactly the
locality/district values that are truthy and differ from the last-known
ones of the given state. -/
def roadChangeEntry (lang : Lang) (road locality ortsteil : Option String)
    (st : NarrState) : String :=
  let e := (match lang with
    | .DE => "- Straßenwechsel: "
    | .EN => "- Road change: ") ++ road.getD ""
  let bits :=
    (if truthy locality ∧ locality ≠ st.last_locality then [locLabel lang (locality.getD "")]
      else []) ++
    (if truthy ortsteil ∧ ortsteil ≠ st.last_ortsteil then [ortLabel lang (ortsteil.getD "")]
      else [])
  if bits ≠ [] then e ++ " (" ++ String.intercalate ", " bits ++ ")" else e

/-- Road-change block of the loop (indices > 0): emit a road-change line
when the extracted road is truthy and differs from the last-known road,
updating the last-known locality/district exactly for the categories that
changed; afterwards update the last-known road whenever a road is truthy. -/
def roadPhase (lang : Lang) (road locality ortsteil : Option String)
    (st : NarrState) : NarrState :=
  let stE :=
    if truthy road ∧ road ≠ st.last_road then
      { st with
        lines := st.lines ++ [roadChangeEntry lang road locality ortsteil st]
        last_locality :=
          if truthy locality ∧ locality ≠ st.last_locality then locality
          else st.last_locality
        last_ortsteil :=
          if truthy ortsteil ∧ ortsteil ≠ st.last_ortsteil then ortsteil
          else st.last_ortsteil }
    else st
  if truthy road then { stE with last_road := road } else stE

/-- One iteration of the loop of `build_description` at sample index `idx`
with previous sample `prev`: advance the cumulative distance (for positive
indices), attempt the fine lookup (a failure appends a localized note and
ends the iteration), then run the section check followed by the index-0 or
road-change block. -/
def narrStep {α : Type} (cfg : NarrCfg) (dist : α → α → ℚ)
    (fine sectionLoc : ℕ → Except String Address) (startLoc : Except String Address)
    (idx : ℕ) (prev : Option α) (p : α) (st : NarrState) : NarrState :=
  let cum :=
    if 0 < idx then st.cumulative_m + (match prev with | some q => dist q p | none => 0)
    else st.cumulative_m
  let st0 := { st with cumulative_m := cum }
  match fine idx with
  | .error e => { st0 with lines := st0.lines ++ [failNote cfg.lang e] }
  | .ok address =>
    let road := pick_road address
    let locality := pick_locality address
    let ortsteil := pick_ortsteil address
    let st1 :=
      if st0.next_section_m ≤ (cum : WithTop ℚ) then
        sectionPhase cfg (sectionLoc idx) locality ortsteil st0
      else st0
    if idx = 0 then startPhase cfg startLoc road locality ortsteil st1
    else roadPhase cfg.lang road locality ortsteil st1

/-- The loop of `build_description` over the remaining samples, carrying
the current index and the previous sample. -/
def narrRun {α : Type} (cfg : NarrCfg) (dist : α → α → ℚ)
    (fine sectionLoc : ℕ → Except String Address) (startLoc : Except String Address) :
    List α → ℕ → Option α → NarrState → NarrState
  | [], _, _, st => st
  | p :: rest, idx, prev, st =>
    narrRun cfg dist fine sectionLoc startLoc rest (idx + 1) (some p)
      (narrStep cfg dist fine sectionLoc startLoc idx prev p st)

/-- Initial narrative state of a run. -/
def initState (cfg : NarrCfg) : NarrState :=
  { last_road := none
    last_locality := none
    last_ortsteil := none
    cumulative_m := 0
    next_section_m :=
      if 0 < cfg.section_km then ((cfg.section_km * 1000 : ℚ) : WithTop ℚ) else ⊤
    lines := [] }

/-- The `Ziel`/`Finish` line built from the final last-known values. -/
def goalEntry (lang : Lang) (st : NarrState) : String :=
  let e1 := (match lang with | .DE => "- Ziel" | .EN => "- Finish") ++
    (if truthy st.last_road then ": " ++ st.last_road.getD "" else "")
  if truthy st.last_locality ∨ truthy st.last_ortsteil then
    e1 ++ " (" ++
      (if truthy st.last_locality then locLabel lang (st.last_locality.getD "") else "") ++
      (if truthy st.last_ortsteil then
        (if truthy st.last_locality then ", " else "") ++
          ortLabel lang (st.last_ortsteil.getD "")
      else "") ++ ")"
  else e1

/-- The narrative core of `build_description`: run the loop over the
sampled points and append the finish line when start/finish events are
enabled and at least one point was sampled.  Returns the event lines and
the sample count. -/
def build_description {α : Type} (cfg : NarrCfg) (dist : α → α → ℚ)
    (fine sectionLoc : ℕ → Except String Address) (startLoc : Except String Address)
    (sampled : List α) : List String × ℕ :=
  let st := narrRun cfg dist fine sectionLoc startLoc sampled 0 none (initState cfg)
  let lines :=
    if cfg.include_start_goal ∧ sampled.isEmpty = false then
      st.lines ++ [goalEntry cfg.lang st]
    else st.lines
  (lines, sampled.length)

/-- Invariant tying the section boundary to the configuration: the boundary
is infinite (sections disabled) or the section length is positive. -/
def SectionInv (cfg : NarrCfg) (st : NarrState) : Prop :=
  st.next_section_m = ⊤ ∨ 0 < cfg.section_km

/-! ### Helper lemmas -/

/-- The greedy scan keeps an order-preserving subsequence of its input. -/
theorem downsampleAux_sublist {α β : Type} [LinearOrder β] (dist : α → α → β)
    (q : α) (rest : List α) (d : β) : (downsampleAux dist q rest d).Sublist rest := by
  induction rest generalizing q with
  | nil => simp [downsampleAux]
  | cons p ps ih =>
    by_cases h : d ≤ dist q p
    · simpa [downsampleAux, h] using List.Sublist.cons₂ p (ih p)
    · simpa [downsampleAux, h] using List.Sublist.cons p (ih q)

/-- A sublist of `l' ++ [a]` that does not end in `a` is a sublist of `l'`. -/
theorem sublist_of_sublist_concat_getLast_ne {α : Type} {l l' : List α} {a : α}
    (h : l.Sublist (l' ++ [a])) (hne : l.getLast? ≠ some a) : l.Sublist l' := by
  rcases List.sublist_append_iff.mp h with ⟨l₁, l₂, rfl, h₁, h₂⟩
  cases l₂ with
  | nil => simpa using h₁
  | cons b bs =>
    have hb : b = a := by
      have := h₂.subset (List.mem_cons_self b bs)
      simpa using this
    have hbs : bs = [] := by
      have hlen := h₂.length_le
      simpa using hlen
    subst hb hbs
    exact absurd (List.getLast?_concat l₁) hne

/-- If every point of the tail is closer than the threshold to the head,
the greedy scan keeps nothing. -/
theorem downsampleAux_eq_nil {α β : Type} [LinearOrder β] (dist : α → α → β)
    (q : α) (rest : List α) (d : β) (h : ∀ p ∈ rest, dist q p < d) :
    downsampleAux dist q rest d = [] := by
  induction rest with
  | nil => simp [downsampleAux]
  | cons p ps ih =>
    have hlt : ¬ d ≤ dist q p := not_le.mpr (h p (List.mem_cons_self p ps))
    simp only [downsampleAux, if_neg hlt]
    exact ih fun x hx => h x (List.mem_cons_of_mem p hx)

/-- With a threshold above every head-to-tail distance the downsampler
keeps at most the two endpoints. -/
theorem downsample_length_le_two {α β : Type} [DecidableEq α] [LinearOrder β]
    (dist : α → α → β) (p0 : α) (rest : List α) (d : β)
    (h : ∀ p ∈ rest, dist p0 p < d) :
    (downsample dist (p0 :: rest) d).length ≤ 2 := by
  have haux := downsampleAux_eq_nil dist p0 rest d h
  simp only [downsample, haux]
  split <;> simp

/-- If some pass of the rescan loop fits under the cap, the loop succeeds
with that much fuel. -/
theorem sampleLoop_some_of_le {α β : Type} [DecidableEq α] [LinearOrderedField β]
    (dist : α → α → β) (points : List α) (cap : ℕ) (k : ℕ) :
    ∀ d : β, (downsample dist points (d * (3 / 2) ^ k)).length ≤ cap →
      ∃ r, sampleLoop dist points cap d k = some r ∧ r.length ≤ cap := by
  induction k with
  | zero =>
    intro d h
    rw [pow_zero, mul_one] at h
    exact ⟨_, by simp [sampleLoop, if_pos h], h⟩
  | succ k ih =>
    intro d h
    by_cases h0 : (downsample dist points d).length ≤ cap
    · exact ⟨_, by simp [sampleLoop, if_pos h0], h0⟩
    · have hstep : sampleLoop dist points cap d (k + 1) =
          sampleLoop dist points cap (d * (3 / 2)) k := by
        simp [sampleLoop, if_neg h0]
      rw [hstep]
      apply ih
      have hpow : d * (3 / 2) ^ (k + 1) = d * (3 / 2) * (3 / 2) ^ k := by ring
      rwa [hpow] at h

/-- Every finite list of values in a linear order has an upper bound. -/
theorem exists_list_upper_bound {β : Type} [LinearOrder β] [Zero β] (l : List β) :
    ∃ B, ∀ x ∈ l, x ≤ B := by
  induction l with
  | nil => exact ⟨0, by simp⟩
  | cons y ys ih =>
    obtain ⟨B, hB⟩ := ih
    refine ⟨max y B, ?_⟩
    intro x hx
    rcases List.mem_cons.mp hx with rfl | hx
    · exact le_max_left _ _
    · exact le_trans (hB x hx) (le_max_right _ _)

/-! ### Claims about the adaptive downsampler -/

/-- Claim C2: for every non-empty point list and every spacing threshold,
the downsampler's output is an order-preserving subsequence of the input
whose first element equals the input's first element and whose last
element equals the input's last element, even when the greedy spacing scan
would have dropped the last point. -/
theorem downsample_sublist_first_last {α β : Type} [DecidableEq α] [LinearOrder β]
    (dist : α → α → β) (points : List α) (d : β) (h : points ≠ []) :
    (downsample dist points d).Sublist points ∧
      (downsample dist points d).head? = points.head? ∧
      (downsample dist points d).getLast? = points.getLast? := by
  match points with
  | p0 :: rest =>
    have hkeep : (p0 :: downsampleAux dist p0 rest d).Sublist (p0 :: rest) :=
      List.Sublist.cons₂ p0 (downsampleAux_sublist dist p0 rest d)
    have hlastPt : (p0 :: rest).getLast? =
        some ((p0 :: rest).getLast (List.cons_ne_nil p0 rest)) :=
      List.getLast?_eq_getLast _ _
    simp only [downsample]
    split
    case isTrue hne =>
      refine ⟨?_, ?_, ?_⟩
      · have hsplit :
            (p0 :: rest).dropLast ++ [(p0 :: rest).getLast (List.cons_ne_nil p0 rest)] =
              p0 :: rest :=
          List.dropLast_append_getLast (List.cons_ne_nil p0 rest)
        have hkeep' : (p0 :: downsampleAux dist p0 rest d).Sublist
            ((p0 :: rest).dropLast ++ [(p0 :: rest).getLast (List.cons_ne_nil p0 rest)]) := by
          rw [hsplit]; exact hkeep
        have hne' : (p0 :: downsampleAux dist p0 rest d).getLast? ≠
            some ((p0 :: rest).getLast (List.cons_ne_nil p0 rest)) := by
          rw [List.getLast?_eq_getLast _ (List.cons_ne_nil _ _)]
          simpa using hne
        have hdrop := sublist_of_sublist_concat_getLast_ne hkeep' hne'
        have hfin := hdrop.append
          (List.Sublist.refl [(p0 :: rest).getLast (List.cons_ne_nil p0 rest)])
        rw [hsplit] at hfin
        exact hfin
      · simp
      · rw [List.getLast?_concat, hlastPt]
    case isFalse hne =>
      refine ⟨hkeep, by simp, ?_⟩
      rw [List.getLast?_eq_getLast _ (List.cons_ne_nil _ _), hlastPt]
      simp only [not_ne_iff] at hne
      rw [hne]

/-- Witness for C2 at a concrete input. -/
theorem downsample_sublist_first_last_witness :
    ([1, 2, 3] : List ℕ) ≠ [] ∧
      ((downsample (fun _ _ => (0 : ℕ)) [1, 2, 3] 5).Sublist [1, 2, 3] ∧
        (downsample (fun _ _ => (0 : ℕ)) [1, 2, 3] 5).head? = ([1, 2, 3] : List ℕ).head? ∧
        (downsample (fun _ _ => (0 : ℕ)) [1, 2, 3] 5).getLast? =
          ([1, 2, 3] : List ℕ).getLast?) :=
  ⟨by decide, downsample_sublist_first_last (fun _ _ => (0 : ℕ)) [1, 2, 3] 5 (by decide)⟩

/-- Claim C1, counterexample: with cap 1 and two points at positive
distance, the rescan loop of `sample_points` never exits, whatever fuel it
is given — the code has no fixed-point exit, it loops while the output is
longer than the cap even though threshold growth no longer changes the
output. -/
theorem sample_points_cap_one_diverges :
    ¬ ∃ fuel r, sample_points (fun _ _ => (1 : ℚ)) ([0, 1] : List ℕ) 1 50 fuel = some r := by
  have hds : ∀ d : ℚ, 1 < d →
      downsample (fun _ _ => (1 : ℚ)) ([0, 1] : List ℕ) d = [0, 1] := by
    intro d hd
    have : ¬ d ≤ (1 : ℚ) := not_le.mpr hd
    simp [downsample, downsampleAux, this, List.getLast]
  have key : ∀ (fuel : ℕ) (d : ℚ), 1 < d →
      sampleLoop (fun _ _ => (1 : ℚ)) ([0, 1] : List ℕ) 1 d fuel = none := by
    intro fuel
    induction fuel with
    | zero =>
      intro d hd
      simp [sampleLoop, hds d hd]
    | succ n ih =>
      intro d hd
      have hd' : (1 : ℚ) < d * (3 / 2) := by nlinarith
      simp [sampleLoop, hds d hd]
      exact ih (d * (3 / 2)) hd'
  rintro ⟨fuel, r, hr⟩
  rw [sample_points, key fuel 50 (by norm_num)] at hr
  exact Option.noConfusion hr

/-- Claim C1, amended: for every non-empty point list, a target cap of at
least 2 and a positive initial spacing threshold, the adaptive rescan loop
terminates (some fuel suffices) and its result has length at most the cap. -/
theorem sample_points_terminates {α β : Type} [DecidableEq α] [LinearOrderedField β]
    [Archimedean β] (dist : α → α → β) (points : List α) (cap : ℕ) (min0 : β)
    (hne : points ≠ []) (hcap : 2 ≤ cap) (hpos : 0 < min0) :
    ∃ fuel r, sample_points dist points cap min0 fuel = some r ∧ r.length ≤ cap := by
  match points with
  | p0 :: rest =>
    obtain ⟨B, hB⟩ := exists_list_upper_bound (rest.map (dist p0))
    obtain ⟨k, hk⟩ := pow_unbounded_of_one_lt (B / min0) (by norm_num : (1 : β) < 3 / 2)
    have hBlt : B < min0 * (3 / 2) ^ k := by
      rw [div_lt_iff₀ hpos] at hk
      calc B < (3 / 2) ^ k * min0 := hk
        _ = min0 * (3 / 2) ^ k := mul_comm _ _
    have hall : ∀ p ∈ rest, dist p0 p < min0 * (3 / 2) ^ k := fun p hp =>
      lt_of_le_of_lt (hB (dist p0 p) (List.mem_map_of_mem (dist p0) hp)) hBlt
    have hlen := downsample_length_le_two dist p0 rest (min0 * (3 / 2) ^ k) hall
    obtain ⟨r, hr, hrle⟩ :=
      sampleLoop_some_of_le dist (p0 :: rest) cap k min0 (le_trans hlen hcap)
    exact ⟨k, r, hr, hrle⟩

/-- Witness for the amended C1 at a concrete input. -/
theorem sample_points_terminates_witness :
    ([4, 7, 9] : List ℕ) ≠ [] ∧ 2 ≤ 2 ∧ (0 : ℚ) < 50 ∧
      ∃ fuel r, sample_points (fun _ _ => (1 : ℚ)) ([4, 7, 9] : List ℕ) 2 50 fuel = some r ∧
        r.length ≤ 2 :=
  ⟨by decide, by decide, by norm_num,
    sample_points_terminates (fun _ _ => (1 : ℚ)) [4, 7, 9] 2 50 (by decide) (by decide)
      (by norm_num)⟩

/-! ### Claim about the great-circle distance -/

/-- The degree-to-radian conversion is odd. -/
theorem radians_neg (x : ℝ) : radians (-x) = -radians x := by
  unfold radians; ring

/-- Claim C9: the great-circle distance function is symmetric and zero on
equal points. -/
theorem haversine_symm_and_zero (a b : Point) :
    haversine_m a b = haversine_m b a ∧ haversine_m a a = 0 := by
  constructor
  · have hsq : ∀ x y : ℝ, Real.sin ((x - y) / 2) ^ 2 = Real.sin ((y - x) / 2) ^ 2 := by
      intro x y
      rw [show (x - y) / 2 = -((y - x) / 2) by ring, Real.sin_neg, neg_sq]
    have hlon : radians (a.lon - b.lon) = -radians (b.lon - a.lon) := by
      rw [show a.lon - b.lon = -(b.lon - a.lon) by ring, radians_neg]
    simp only [haversine_m]
    rw [hsq (radians b.lat) (radians a.lat), hlon,
      show -radians (b.lon - a.lon) / 2 = -(radians (b.lon - a.lon) / 2) by ring,
      Real.sin_neg, neg_sq, mul_comm (Real.cos (radians a.lat)) (Real.cos (radians b.lat))]
  · simp only [haversine_m]
    simp [radians, Real.sqrt_zero, Real.arcsin_zero]

/-! ### Claims about the telemetry field summaries -/

/-- Claim C6, counterexample: two observations of the same non-numeric
value.  Only one distinct value existed in the stream and it was captured,
so the claim predicts the rendering `a` without an ellipsis; the code
compares the total observation count (2) with the captured set size (1)
and renders `a...`. -/
theorem format_value_ellipsis_counterexample :
    ((({} : FieldSummary).add_value (.pstr "a") none).add_value
        (.pstr "a") none).unique_values = some ["a"] ∧
      ((({} : FieldSummary).add_value (.pstr "a") none).add_value
        (.pstr "a") none).count = 2 ∧
      ((({} : FieldSummary).add_value (.pstr "a") none).add_value
        (.pstr "a") none).format_value = "a..." ∧
      ((({} : FieldSummary).add_value (.pstr "a") none).add_value
        (.pstr "a") none).format_value ≠ "a" :=
  ⟨by decide, by decide, by decide, by decide⟩

/-- Claim C6, amended: with more than one numeric observation the rendering
is the min/max/avg statistics line (observations 10 and 20 with unit `m`
render exactly as `min=10.0, max=20.0, avg=15.00 m`); with exactly one
numeric observation it is the recorded value string with its unit and no
min/max/avg; otherwise, when distinct non-numeric values were captured,
they are rendered sorted and comma-joined with a trailing ellipsis exactly
when the total observation count exceeds the number of captured distinct
values. -/
theorem format_value_spec :
    ((({} : FieldSummary).add_value (.pint 10) (some "m")).add_value
        (.pint 20) (some "m")).format_value = "min=10.0, max=20.0, avg=15.00 m" ∧
      (∀ s : FieldSummary, s.numeric_count = 1 →
        s.format_value = (match s.last_value with | some v => v | none => "None") ++
          (if truthy s.unit then " " ++ s.unit.getD "" else "")) ∧
      (∀ s : FieldSummary, s.numeric_count = 0 → s.unique_values.getD [] ≠ [] →
        s.format_value =
          String.intercalate ", " (sortStrings (s.unique_values.getD [])) ++
            (if s.count ≤ (s.unique_values.getD []).length then "" else "...")) := by
  refine ⟨?_, ?_, ?_⟩
  · set_option maxRecDepth 16000 in
    norm_num +decide [FieldSummary.add_value, FieldSummary.format_value, PyVal.toRat,
      PyVal.pyStr, truthy, floatRepr, format2dp, fracDigitsAux]
  · intro s h
    simp [FieldSummary.format_value, h]
  · intro s h0 hne
    simp [FieldSummary.format_value, h0, hne]

/-- Witness for the amended C6 at concrete single-numeric and
non-numeric-only states. -/
theorem format_value_spec_witness :
    ((({} : FieldSummary).add_value (.pint 7) (some "W")).numeric_count = 1 ∧
      (({} : FieldSummary).add_value (.pint 7) (some "W")).format_value =
        (match (({} : FieldSummary).add_value (.pint 7) (some "W")).last_value with
          | some v => v | none => "None") ++
          (if truthy (({} : FieldSummary).add_value (.pint 7) (some "W")).unit then
            " " ++ (({} : FieldSummary).add_value (.pint 7) (some "W")).unit.getD ""
          else "")) ∧
      ((({} : FieldSummary).add_value (.pstr "x") none).numeric_count = 0 ∧
        (({} : FieldSummary).add_value (.pstr "x") none).unique_values.getD [] ≠ [] ∧
        (({} : FieldSummary).add_value (.pstr "x") none).format_value =
          String.intercalate ", "
            (sortStrings ((({} : FieldSummary).add_value (.pstr "x") none).unique_values.getD [])) ++
            (if (({} : FieldSummary).add_value (.pstr "x") none).count ≤
                ((({} : FieldSummary).add_value (.pstr "x") none).unique_values.getD []).length then
              "" else "...")) :=
  ⟨⟨by decide, format_value_spec.2.1 _ (by decide)⟩,
    ⟨by decide, by decide, format_value_spec.2.2 _ (by decide) (by decide)⟩⟩

/-- One `add_value` step preserves the strengthened invariant. -/
theorem add_value_strongInv (s : FieldSummary) (v : PyVal) (u : Option String)
    (h : s.StrongInv) : (s.add_value v u).StrongInv := by
  obtain ⟨⟨hcnt, hminmax, huniq⟩, hempty⟩ := h
  rcases hq : v.toRat with _ | q
  · simp only [FieldSummary.StrongInv, FieldSummary.Inv, FieldSummary.add_value, hq,
      apply_ite FieldSummary.count, apply_ite FieldSummary.numeric_count,
      apply_ite FieldSummary.total, apply_ite FieldSummary.min_value,
      apply_ite FieldSummary.max_value, apply_ite FieldSummary.last_value,
      apply_ite FieldSummary.unit, apply_ite FieldSummary.unique_values, ite_self]
    refine ⟨⟨by omega, hminmax, ?_⟩, hempty⟩
    simp only [Option.getD_some]
    split_ifs with h1 h2
    · exact huniq
    · simp only [List.length_append, List.length_cons, List.length_nil]
      omega
    · exact huniq
  · rcases hmin : s.min_value with _ | m
    · have hnc0 : s.numeric_count = 0 := by
        by_contra h'
        obtain ⟨mn, _, hmn, _⟩ := hminmax (by omega)
        rw [hmin] at hmn
        cases hmn
      have hmax : s.max_value = none := (hempty hnc0).2
      simp only [FieldSummary.StrongInv, FieldSummary.Inv, FieldSummary.add_value, hq,
        apply_ite FieldSummary.count, apply_ite FieldSummary.numeric_count,
        apply_ite FieldSummary.total, apply_ite FieldSummary.min_value,
        apply_ite FieldSummary.max_value, apply_ite FieldSummary.last_value,
        apply_ite FieldSummary.unit, apply_ite FieldSummary.unique_values, ite_self,
        hmin, hmax]
      exact ⟨⟨by omega, fun _ => ⟨q, q, rfl, rfl, le_refl q⟩, huniq⟩,
        fun h1 => absurd h1 (by omega)⟩
    · have hne0 : s.numeric_count ≠ 0 := fun h0 => by
        have := (hempty h0).1
        rw [hmin] at this
        cases this
      obtain ⟨mn, mx, hmn, hmx, hle⟩ := hminmax (by omega)
      have hmnm : mn = m := by rw [hmin] at hmn; exact (Option.some_inj.mp hmn).symm
      subst hmnm
      simp only [FieldSummary.StrongInv, FieldSummary.Inv, FieldSummary.add_value, hq,
        apply_ite FieldSummary.count, apply_ite FieldSummary.numeric_count,
        apply_ite FieldSummary.total, apply_ite FieldSummary.min_value,
        apply_ite FieldSummary.max_value, apply_ite FieldSummary.last_value,
        apply_ite FieldSummary.unit, apply_ite FieldSummary.unique_values, ite_self,
        hmin, hmx]
      by_cases hqm : q < mn <;> by_cases hxq : mx < q <;>
        simp only [hqm, hxq, if_true, if_false, ite_true, ite_false,
          apply_ite FieldSummary.count, apply_ite FieldSummary.numeric_count,
          apply_ite FieldSummary.total, apply_ite FieldSummary.min_value,
          apply_ite FieldSummary.max_value, apply_ite FieldSummary.last_value,
          apply_ite FieldSummary.unit, apply_ite FieldSummary.unique_values, ite_self]
      · exact ⟨⟨by omega, fun _ => ⟨q, q, rfl, rfl, le_refl q⟩, huniq⟩,
          fun h1 => absurd h1 (by omega)⟩
      · exact ⟨⟨by omega, fun _ => ⟨q, mx, rfl, rfl, le_of_lt (lt_of_lt_of_le hqm hle)⟩,
          huniq⟩, fun h1 => absurd h1 (by omega)⟩
      · exact ⟨⟨by omega, fun _ => ⟨mn, q, rfl, rfl, le_of_not_lt hqm⟩, huniq⟩,
          fun h1 => absurd h1 (by omega)⟩
      · exact ⟨⟨by omega, fun _ => ⟨mn, mx, rfl, rfl, hle⟩, huniq⟩,
          fun h1 => absurd h1 (by omega)⟩

/-- The empty summary satisfies the strengthened invariant. -/
theorem strongInv_init : ({} : FieldSummary).StrongInv := by
  refine ⟨⟨by simp, fun h1 => absurd h1 (by norm_num), by simp⟩, fun _ => ⟨rfl, rfl⟩⟩

/-- Folding any observation stream preserves the strengthened invariant. -/
theorem applyAll_strongInv (inputs : List (PyVal × Option String)) :
    ∀ s : FieldSummary, s.StrongInv → (applyAll inputs s).StrongInv := by
  induction inputs with
  | nil => intro s h; simpa [applyAll] using h
  | cons x xs ih =>
    intro s h
    simp only [applyAll, List.foldl_cons] at ih ⊢
    exact ih _ (add_value_strongInv s x.1 x.2 h)

/-- Claim C10: after every sequence of `add_value` calls starting from a
fresh summary, `numeric_count ≤ count`; whenever `numeric_count ≥ 1` both
`min_value` and `max_value` are set with `min_value ≤ max_value`; and the
captured distinct-value set never holds more than 5 elements. -/
theorem fieldSummary_invariants (inputs : List (PyVal × Option String)) :
    (applyAll inputs ({} : FieldSummary)).Inv :=
  (applyAll_strongInv inputs ({} : FieldSummary) strongInv_init).1

/-! ### Helper lemmas about the narrative engine -/

/-- Total path length is nonnegative when the distance is. -/
theorem chainLen_nonneg {α : Type} (dist : α → α → ℚ) (hdist : ∀ a b, 0 ≤ dist a b)
    (q : α) (l : List α) : 0 ≤ chainLen dist q l := by
  induction l generalizing q with
  | nil => simp [chainLen]
  | cons p rest ih =>
    simp only [chainLen]
    have h1 := hdist q p
    have h2 := ih p
    linarith

/-- The index-0 block never touches the section boundary. -/
theorem startPhase_next (cfg : NarrCfg) (startLoc : Except String Address)
    (road locality ortsteil : Option String) (st : NarrState) :
    (startPhase cfg startLoc road locality ortsteil st).next_section_m =
      st.next_section_m := by
  rcases startLoc with e | la <;>
    by_cases h1 : cfg.include_start_goal = true <;>
    by_cases h2 : cfg.locality_zoom ≠ 0 <;>
    simp [startPhase, h1, h2]

/-- The road-change block never touches the section boundary. -/
theorem roadPhase_next (lang : Lang) (road locality ortsteil : Option String)
    (st : NarrState) :
    (roadPhase lang road locality ortsteil st).next_section_m = st.next_section_m := by
  simp only [roadPhase]
  split <;> split <;> rfl

/-- The section block advances the boundary by exactly one section length. -/
theorem sectionPhase_next (cfg : NarrCfg) (sLoc : Except String Address)
    (locality ortsteil : Option String) (st : NarrState) :
    (sectionPhase cfg sLoc locality ortsteil st).next_section_m =
      st.next_section_m + ((cfg.section_km * 1000 : ℚ) : WithTop ℚ) := rfl

/-- A finite section boundary strictly grows when one section length is
added, under the section invariant. -/
theorem nextBoundary_strict (cfg : NarrCfg) (st : NarrState) (cum : ℚ)
    (hinv : SectionInv cfg st) (hsec : st.next_section_m ≤ (cum : WithTop ℚ)) :
    st.next_section_m <
      st.next_section_m + ((cfg.section_km * 1000 : ℚ) : WithTop ℚ) := by
  rcases hnt : st.next_section_m with _ | c
  · rw [hnt] at hsec
    exact absurd hsec (WithTop.not_top_le_coe _)
  · have hpos : 0 < cfg.section_km := by
      rcases hinv with htop | hpos
      · rw [hnt] at htop; cases htop
      · exact hpos
    have hlt : c < c + cfg.section_km * 1000 :=
      lt_add_of_pos_right c (mul_pos hpos (by norm_num))
    calc (c : WithTop ℚ) < ((c + cfg.section_km * 1000 : ℚ) : WithTop ℚ) := by
          exact_mod_cast hlt
      _ = (c : WithTop ℚ) + ((cfg.section_km * 1000 : ℚ) : WithTop ℚ) := by
          rw [WithTop.coe_add]

/-- One step leaves the section boundary unchanged or advances it by one
section length; in the latter case the boundary strictly increases provided
the invariant holds. -/
theorem narrStep_next_cases {α : Type} (cfg : NarrCfg) (dist : α → α → ℚ)
    (fine sectionLoc : ℕ → Except String Address) (startLoc : Except String Address)
    (idx : ℕ) (prev : Option α) (p : α) (st : NarrState) (hinv : SectionInv cfg st) :
    (narrStep cfg dist fine sectionLoc startLoc idx prev p st).next_section_m =
        st.next_section_m ∨
      ((narrStep cfg dist fine sectionLoc startLoc idx prev p st).next_section_m =
          st.next_section_m + ((cfg.section_km * 1000 : ℚ) : WithTop ℚ) ∧
        st.next_section_m <
          (narrStep cfg dist fine sectionLoc startLoc idx prev p st).next_section_m) := by
  rcases hf : fine idx with e | a
  · left
    simp [narrStep, hf]
  · simp only [narrStep, hf]
    have hQ : ∀ st1 : NarrState,
        (if idx = 0 then
          startPhase cfg startLoc (pick_road a) (pick_locality a) (pick_ortsteil a) st1
        else
          roadPhase cfg.lang (pick_road a) (pick_locality a) (pick_ortsteil a) st1).next_section_m =
          st1.next_section_m := by
      intro st1
      split
      · exact startPhase_next cfg startLoc _ _ _ st1
      · exact roadPhase_next cfg.lang _ _ _ st1
    rw [hQ]
    split
    case isTrue hpos =>
      split
      case isTrue hsec =>
        right
        rw [sectionPhase_next]
        exact ⟨rfl, nextBoundary_strict cfg st _ hinv hsec⟩
      case isFalse hsec =>
        left
        rfl
    case isFalse hpos =>
      split
      case isTrue hsec =>
        right
        rw [sectionPhase_next]
        exact ⟨rfl, nextBoundary_strict cfg st _ hinv hsec⟩
      case isFalse hsec =>
        left
        rfl

/-- One step preserves the section invariant. -/
theorem narrStep_sectionInv {α : Type} (cfg : NarrCfg) (dist : α → α → ℚ)
    (fine sectionLoc : ℕ → Except String Address) (startLoc : Except String Address)
    (idx : ℕ) (prev : Option α) (p : α) (st : NarrState) (hinv : SectionInv cfg st) :
    SectionInv cfg (narrStep cfg dist fine sectionLoc startLoc idx prev p st) := by
  rcases hinv with htop | hpos
  · rcases narrStep_next_cases cfg dist fine sectionLoc startLoc idx prev p st
        (Or.inl htop) with heq | ⟨heq, _⟩
    · left; rw [heq, htop]
    · left; rw [heq, htop, top_add]
  · right; exact hpos

/-- The whole run preserves the section invariant. -/
theorem narrRun_sectionInv {α : Type} (cfg : NarrCfg) (dist : α → α → ℚ)
    (fine sectionLoc : ℕ → Except String Address) (startLoc : Except String Address) :
    ∀ (l : List α) (idx : ℕ) (prev : Option α) (st : NarrState), SectionInv cfg st →
      SectionInv cfg (narrRun cfg dist fine sectionLoc startLoc l idx prev st) := by
  intro l
  induction l with
  | nil => intro idx prev st h; simpa [narrRun] using h
  | cons p rest ih =>
    intro idx prev st h
    simp only [narrRun]
    exact ih _ _ _ (narrStep_sectionInv cfg dist fine sectionLoc startLoc idx prev p st h)

/-- The initial state satisfies the section invariant. -/
theorem initState_sectionInv (cfg : NarrCfg) : SectionInv cfg (initState cfg) := by
  by_cases h : 0 < cfg.section_km
  · right; exact h
  · left; simp [initState, h]

/-- Unfolding a run over an appended list. -/
theorem narrRun_append {α : Type} (cfg : NarrCfg) (dist : α → α → ℚ)
    (fine sectionLoc : ℕ → Except String Address) (startLoc : Except String Address) :
    ∀ (l₁ l₂ : List α) (idx : ℕ) (prev : Option α) (st : NarrState),
      narrRun cfg dist fine sectionLoc startLoc (l₁ ++ l₂) idx prev st =
        narrRun cfg dist fine sectionLoc startLoc l₂ (idx + l₁.length)
          (l₁.getLast?.or prev)
          (narrRun cfg dist fine sectionLoc startLoc l₁ idx prev st) := by
  intro l₁
  induction l₁ with
  | nil => intro l₂ idx prev st; simp [narrRun, Option.none_or]
  | cons a as ih =>
    intro l₂ idx prev st
    simp only [List.cons_append, narrRun, List.append_eq]
    rw [ih]
    have harith : (idx + 1) + as.length = idx + (a :: as).length := by
      simp [List.length_cons]; omega
    have hlast : (as.getLast?).or (some a) = ((a :: as).getLast?).or prev := by
      cases as with
      | nil => simp
      | cons b bs =>
        rw [List.getLast?_cons_cons,
          List.getLast?_eq_getLast (b :: bs) (List.cons_ne_nil b bs)]
        simp [Option.or]
    rw [harith, hlast]

/-! ### Claims about the narrative engine -/

/-- Claim C3: at a positive index whose fine reverse-geocode lookup fails,
the engine appends exactly the localized failure note, leaves the
last-known road, locality and district and the section boundary unchanged,
still advances the cumulative distance, emits nothing else for that index,
and the run continues with the next sample. -/
theorem narrStep_lookup_failure {α : Type} (cfg : NarrCfg) (dist : α → α → ℚ)
    (fine sectionLoc : ℕ → Except String Address) (startLoc : Except String Address)
    (idx : ℕ) (q p : α) (st : NarrState) (e : String) (rest : List α)
    (hidx : 0 < idx) (hfail : fine idx = .error e) :
    narrStep cfg dist fine sectionLoc startLoc idx (some q) p st =
      { st with cumulative_m := st.cumulative_m + dist q p
                lines := st.lines ++ [failNote cfg.lang e] } ∧
    narrRun cfg dist fine sectionLoc startLoc (p :: rest) idx (some q) st =
      narrRun cfg dist fine sectionLoc startLoc rest (idx + 1) (some p)
        { st with cumulative_m := st.cumulative_m + dist q p
                  lines := st.lines ++ [failNote cfg.lang e] } := by
  have h1 : narrStep cfg dist fine sectionLoc startLoc idx (some q) p st =
      { st with cumulative_m := st.cumulative_m + dist q p
                lines := st.lines ++ [failNote cfg.lang e] } := by
    simp [narrStep, hfail, hidx]
  refine ⟨h1, ?_⟩
  simp only [narrRun]
  rw [h1]

/-- Witness for C3 at a concrete failing lookup. -/
theorem narrStep_lookup_failure_witness :
    0 < 1 ∧ (fun _ : ℕ => (Except.error "boom" : Except String Address)) 1 =
        Except.error "boom" ∧
      (narrStep (α := ℕ) ⟨.EN, true, 3, 12⟩ (fun _ _ => (5 : ℚ))
          (fun _ => .error "boom") (fun _ => .error "x") (.error "y") 1 (some 0) 1
          (initState ⟨.EN, true, 3, 12⟩) =
        { initState ⟨.EN, true, 3, 12⟩ with
            cumulative_m := (initState ⟨.EN, true, 3, 12⟩).cumulative_m +
              (fun _ _ => (5 : ℚ)) 0 1
            lines := (initState ⟨.EN, true, 3, 12⟩).lines ++ [failNote .EN "boom"] } ∧
      narrRun (α := ℕ) ⟨.EN, true, 3, 12⟩ (fun _ _ => (5 : ℚ))
          (fun _ => .error "boom") (fun _ => .error "x") (.error "y") [1, 2] 1 (some 0)
          (initState ⟨.EN, true, 3, 12⟩) =
        narrRun (α := ℕ) ⟨.EN, true, 3, 12⟩ (fun _ _ => (5 : ℚ))
          (fun _ => .error "boom") (fun _ => .error "x") (.error "y") [2] 2 (some 1)
          { initState ⟨.EN, true, 3, 12⟩ with
              cumulative_m := (initState ⟨.EN, true, 3, 12⟩).cumulative_m +
                (fun _ _ => (5 : ℚ)) 0 1
              lines := (initState ⟨.EN, true, 3, 12⟩).lines ++ [failNote .EN "boom"] }) :=
  ⟨by decide, rfl,
    narrStep_lookup_failure ⟨.EN, true, 3, 12⟩ (fun _ _ => (5 : ℚ))
      (fun _ => .error "boom") (fun _ => .error "x") (.error "y") 1 0 1
      (initState ⟨.EN, true, 3, 12⟩) "boom" [2] (by decide) rfl⟩

/-- Claim C7: in the road-change block, a road-change line is emitted iff
the extracted road is truthy and differs from the last-known road; its
parenthetical (inside `roadChangeEntry`) lists exactly the truthy
locality/district values that differ from the last-known ones; the
last-known locality/district are updated exactly for the categories that
changed, and only when the event fired; and the last-known road is updated
whenever a road was extracted, event or not.  The block never touches the
cumulative distance or the section boundary. -/
theorem roadPhase_spec (lang : Lang) (road locality ortsteil : Option String)
    (st : NarrState) :
    (roadPhase lang road locality ortsteil st).last_road =
        (if truthy road then road else st.last_road) ∧
      (roadPhase lang road locality ortsteil st).cumulative_m = st.cumulative_m ∧
      (roadPhase lang road locality ortsteil st).next_section_m = st.next_section_m ∧
      (if truthy road ∧ road ≠ st.last_road then
        (roadPhase lang road locality ortsteil st).lines =
            st.lines ++ [roadChangeEntry lang road locality ortsteil st] ∧
          (roadPhase lang road locality ortsteil st).last_locality =
            (if truthy locality ∧ locality ≠ st.last_locality then locality
              else st.last_locality) ∧
          (roadPhase lang road locality ortsteil st).last_ortsteil =
            (if truthy ortsteil ∧ ortsteil ≠ st.last_ortsteil then ortsteil
              else st.last_ortsteil)
      else
        (roadPhase lang road locality ortsteil st).lines = st.lines ∧
          (roadPhase lang road locality ortsteil st).last_locality = st.last_locality ∧
          (roadPhase lang road locality ortsteil st).last_ortsteil = st.last_ortsteil) := by
  by_cases hrc : truthy road ∧ road ≠ st.last_road
  · have hr : truthy road := hrc.1
    simp [roadPhase, hrc, hr]
  · by_cases hr : truthy road
    · have heq : road = st.last_road := not_not.mp (not_and.mp hrc hr)
      simp [roadPhase, hrc, hr, heq]
    · simp [roadPhase, hrc, hr]

/-- Witness for C7 at a concrete state. -/
theorem roadPhase_spec_witness :
    (roadPhase .EN (some "A") none none (initState ⟨.EN, true, 3, 12⟩)).last_road =
        (if truthy (some "A") then some "A"
          else (initState ⟨.EN, true, 3, 12⟩).last_road) ∧
      (roadPhase .EN (some "A") none none
          (initState ⟨.EN, true, 3, 12⟩)).cumulative_m =
        (initState ⟨.EN, true, 3, 12⟩).cumulative_m ∧
      (roadPhase .EN (some "A") none none
          (initState ⟨.EN, true, 3, 12⟩)).next_section_m =
        (initState ⟨.EN, true, 3, 12⟩).next_section_m ∧
      (if truthy (some "A") ∧ some "A" ≠ (initState ⟨.EN, true, 3, 12⟩).last_road then
        (roadPhase .EN (some "A") none none (initState ⟨.EN, true, 3, 12⟩)).lines =
            (initState ⟨.EN, true, 3, 12⟩).lines ++
              [roadChangeEntry .EN (some "A") none none (initState ⟨.EN, true, 3, 12⟩)] ∧
          (roadPhase .EN (some "A") none none
              (initState ⟨.EN, true, 3, 12⟩)).last_locality =
            (if truthy none ∧ none ≠ (initState ⟨.EN, true, 3, 12⟩).last_locality then none
              else (initState ⟨.EN, true, 3, 12⟩).last_locality) ∧
          (roadPhase .EN (some "A") none none
              (initState ⟨.EN, true, 3, 12⟩)).last_ortsteil =
            (if truthy none ∧ none ≠ (initState ⟨.EN, true, 3, 12⟩).last_ortsteil then none
              else (initState ⟨.EN, true, 3, 12⟩).last_ortsteil)
      else
        (roadPhase .EN (some "A") none none (initState ⟨.EN, true, 3, 12⟩)).lines =
            (initState ⟨.EN, true, 3, 12⟩).lines ∧
          (roadPhase .EN (some "A") none none
              (initState ⟨.EN, true, 3, 12⟩)).last_locality =
            (initState ⟨.EN, true, 3, 12⟩).last_locality ∧
          (roadPhase .EN (some "A") none none
              (initState ⟨.EN, true, 3, 12⟩)).last_ortsteil =
            (initState ⟨.EN, true, 3, 12⟩).last_ortsteil) :=
  roadPhase_spec .EN (some "A") none none (initState ⟨.EN, true, 3, 12⟩)

/-- Claim C5, counterexample: at index 0 with start/finish enabled, the
fine lookup resolves a road but no locality, while the coarse refinement
lookup resolves the locality `Springfield`.  The refinement updates the
stored last-known locality, but the emitted Start line carries only the
fine lookup's values: the output is `- Start: Main Street`, not a line
carrying the refined locality as the claim predicts. -/
theorem startPhase_refined_counterexample :
    (startPhase ⟨.EN, true, 3, 12⟩ (.ok [("city", "Springfield")]) (some "Main Street")
        none none (initState ⟨.EN, true, 3, 12⟩)).lines = ["- Start: Main Street"] ∧
      (startPhase ⟨.EN, true, 3, 12⟩ (.ok [("city", "Springfield")]) (some "Main Street")
        none none (initState ⟨.EN, true, 3, 12⟩)).last_locality = some "Springfield" ∧
      (startPhase ⟨.EN, true, 3, 12⟩ (.ok [("city", "Springfield")]) (some "Main Street")
        none none (initState ⟨.EN, true, 3, 12⟩)).lines ≠
        ["- Start: Main Street (Place: Springfield)"] :=
  ⟨by decide, by decide, by decide⟩

/-- Claim C5, amended: at index 0 with start/finish events enabled and a
truthy locality zoom, the engine performs the coarse refinement lookup and
uses it only to update the stored last-known locality/district (falling
back to the seeded values when the lookup fails or a category is falsy);
the emitted Start line carries the road (if truthy) and the locality and
district of the point's own fine lookup (if truthy), and the parenthetical
is omitted entirely when neither fine value resolved. -/
theorem startPhase_spec (cfg : NarrCfg) (startLoc : Except String Address)
    (road locality ortsteil : Option String) (st : NarrState)
    (hsg : cfg.include_start_goal = true) (hzoom : cfg.locality_zoom ≠ 0) :
    (startPhase cfg startLoc road locality ortsteil st).lines =
        st.lines ++ [startEntry cfg.lang road locality ortsteil] ∧
      (¬ truthy locality ∧ ¬ truthy ortsteil →
        startEntry cfg.lang road locality ortsteil =
          "- Start" ++ (if truthy road then ": " ++ road.getD "" else "")) ∧
      (startPhase cfg startLoc road locality ortsteil st).last_road =
        (if truthy road then road else st.last_road) ∧
      (startPhase cfg startLoc road locality ortsteil st).last_locality =
        (match startLoc with
          | .ok la => pyOr (pick_locality la)
              (if truthy locality then locality else st.last_locality)
          | .error _ => (if truthy locality then locality else st.last_locality)) ∧
      (startPhase cfg startLoc road locality ortsteil st).last_ortsteil =
        (match startLoc with
          | .ok la => pyOr (pick_ortsteil la)
              (if truthy ortsteil then ortsteil else st.last_ortsteil)
          | .error _ => (if truthy ortsteil then ortsteil else st.last_ortsteil)) := by
  refine ⟨?_, ?_, ?_, ?_, ?_⟩
  · rcases startLoc with e | la <;> simp [startPhase, hsg, hzoom]
  · rintro ⟨h1, h2⟩
    simp [startEntry, h1, h2]
  · rcases startLoc with e | la <;> simp [startPhase, hsg, hzoom]
  · rcases startLoc with e | la <;> simp [startPhase, hsg, hzoom]
  · rcases startLoc with e | la <;> simp [startPhase, hsg, hzoom]

/-- Witness for the amended C5 at a concrete index-0 state. -/
theorem startPhase_spec_witness :
    (⟨.EN, true, 3, 12⟩ : NarrCfg).include_start_goal = true ∧
      (⟨.EN, true, 3, 12⟩ : NarrCfg).locality_zoom ≠ 0 ∧
      ((startPhase ⟨.EN, true, 3, 12⟩ (.ok [("city", "Springfield")]) (some "Main Street")
          none none (initState ⟨.EN, true, 3, 12⟩)).lines =
        (initState ⟨.EN, true, 3, 12⟩).lines ++
          [startEntry .EN (some "Main Street") none none] ∧
      (¬ truthy none ∧ ¬ truthy none →
        startEntry .EN (some "Main Street") none none =
          "- Start" ++
            (if truthy (some "Main Street") then ": " ++ (some "Main Street").getD ""
              else "")) ∧
      (startPhase ⟨.EN, true, 3, 12⟩ (.ok [("city", "Springfield")]) (some "Main Street")
          none none (initState ⟨.EN, true, 3, 12⟩)).last_road =
        (if truthy (some "Main Street") then some "Main Street"
          else (initState ⟨.EN, true, 3, 12⟩).last_road) ∧
      (startPhase ⟨.EN, true, 3, 12⟩ (.ok [("city", "Springfield")]) (some "Main Street")
          none none (initState ⟨.EN, true, 3, 12⟩)).last_locality =
        (match (.ok [("city", "Springfield")] : Except String Address) with
          | .ok la => pyOr (pick_locality la)
              (if truthy none then none else (initState ⟨.EN, true, 3, 12⟩).last_locality)
          | .error _ =>
              (if truthy none then none
                else (initState ⟨.EN, true, 3, 12⟩).last_locality)) ∧
      (startPhase ⟨.EN, true, 3, 12⟩ (.ok [("city", "Springfield")]) (some "Main Street")
          none none (initState ⟨.EN, true, 3, 12⟩)).last_ortsteil =
        (match (.ok [("city", "Springfield")] : Except String Address) with
          | .ok la => pyOr (pick_ortsteil la)
              (if truthy none then none else (initState ⟨.EN, true, 3, 12⟩).last_ortsteil)
          | .error _ =>
              (if truthy none then none
                else (initState ⟨.EN, true, 3, 12⟩).last_ortsteil))) :=
  ⟨rfl, by decide,
    startPhase_spec ⟨.EN, true, 3, 12⟩ (.ok [("city", "Springfield")]) (some "Main Street")
      none none (initState ⟨.EN, true, 3, 12⟩) rfl (by decide)⟩

/-- Claim C8: across any run, the section boundary after processing one
more sample is at least the boundary before it, and any change is exactly
one fixed section-length increment (a strict increase). -/
theorem next_section_monotone {α : Type} (cfg : NarrCfg) (dist : α → α → ℚ)
    (fine sectionLoc : ℕ → Except String Address) (startLoc : Except String Address)
    (sampled : List α) (k : ℕ) :
    (narrRun cfg dist fine sectionLoc startLoc (sampled.take k) 0 none
          (initState cfg)).next_section_m ≤
        (narrRun cfg dist fine sectionLoc startLoc (sampled.take (k + 1)) 0 none
          (initState cfg)).next_section_m ∧
      ((narrRun cfg dist fine sectionLoc startLoc (sampled.take (k + 1)) 0 none
            (initState cfg)).next_section_m =
          (narrRun cfg dist fine sectionLoc startLoc (sampled.take k) 0 none
            (initState cfg)).next_section_m ∨
        ((narrRun cfg dist fine sectionLoc startLoc (sampled.take (k + 1)) 0 none
              (initState cfg)).next_section_m =
            (narrRun cfg dist fine sectionLoc startLoc (sampled.take k) 0 none
              (initState cfg)).next_section_m +
              ((cfg.section_km * 1000 : ℚ) : WithTop ℚ) ∧
          (narrRun cfg dist fine sectionLoc startLoc (sampled.take k) 0 none
              (initState cfg)).next_section_m <
            (narrRun cfg dist fine sectionLoc startLoc (sampled.take (k + 1)) 0 none
              (initState cfg)).next_section_m)) := by
  by_cases hk : k < sampled.length
  · have htake : sampled.take (k + 1) = sampled.take k ++ [sampled[k]] := by
      rw [List.take_succ, List.getElem?_eq_getElem hk]
      rfl
    have hinv : SectionInv cfg
        (narrRun cfg dist fine sectionLoc startLoc (sampled.take k) 0 none
          (initState cfg)) :=
      narrRun_sectionInv cfg dist fine sectionLoc startLoc _ _ _ _
        (initState_sectionInv cfg)
    have hrun : narrRun cfg dist fine sectionLoc startLoc (sampled.take (k + 1)) 0 none
        (initState cfg) =
        narrStep cfg dist fine sectionLoc startLoc (0 + (sampled.take k).length)
          ((sampled.take k).getLast?.or none) sampled[k]
          (narrRun cfg dist fine sectionLoc startLoc (sampled.take k) 0 none
            (initState cfg)) := by
      rw [htake, narrRun_append]
      simp [narrRun]
    rw [hrun]
    rcases narrStep_next_cases cfg dist fine sectionLoc startLoc
        (0 + (sampled.take k).length) ((sampled.take k).getLast?.or none) sampled[k]
        (narrRun cfg dist fine sectionLoc startLoc (sampled.take k) 0 none
          (initState cfg)) hinv with heq | ⟨heq, hlt⟩
    · exact ⟨le_of_eq heq.symm, Or.inl heq⟩
    · exact ⟨le_of_lt hlt, Or.inr ⟨heq, hlt⟩⟩
  · have htake : sampled.take (k + 1) = sampled.take k := by
      rw [List.take_of_length_le (by omega), List.take_of_length_le (by omega)]
    rw [htake]
    exact ⟨le_refl _, Or.inl rfl⟩

/-- The Start line for a truthy road and locality and no district. -/
theorem startEntry_uniform (R L : String) (hR : R ≠ "") (hL : L ≠ "") :
    startEntry .EN (some R) (some L) none =
      "- Start: " ++ R ++ " (Place: " ++ L ++ ")" := by
  simp [startEntry, truthy, locLabel, hR, hL]
  apply String.ext
  simp [String.data_append, List.append_assoc]

/-- The Finish line from a state with a truthy road and locality and no
district. -/
theorem goalEntry_uniform (R L : String) (hR : R ≠ "") (hL : L ≠ "")
    (st : NarrState) (h1 : st.last_road = some R) (h2 : st.last_locality = some L)
    (h3 : st.last_ortsteil = none) :
    goalEntry .EN st = "- Finish: " ++ R ++ " (Place: " ++ L ++ ")" := by
  simp [goalEntry, truthy, locLabel, h1, h2, h3, hR, hL]
  apply String.ext
  simp [String.data_append, List.append_assoc]

/-- Core induction for C4: from a positive index on, if every lookup keeps
resolving to the same truthy road and locality and no district, the state's
last road stays `R`, no section fires (the remaining path fits under the
boundary), and no line is emitted. -/
theorem narrRun_uniform_aux {α : Type} (cfg : NarrCfg) (dist : α → α → ℚ)
    (fine sectionLoc : ℕ → Except String Address) (startLoc : Except String Address)
    (R L : String) (hR : R ≠ "") (hdist : ∀ a b, 0 ≤ dist a b) (c : ℚ) :
    ∀ (rest : List α) (idx : ℕ) (q : α) (st : NarrState),
      0 < idx →
      (∀ j, idx ≤ j → j < idx + rest.length →
        ∃ a, fine j = .ok a ∧ pick_road a = some R ∧ pick_locality a = some L ∧
          pick_ortsteil a = none) →
      st.last_road = some R → st.last_locality = some L → st.last_ortsteil = none →
      st.next_section_m = (c : WithTop ℚ) →
      st.cumulative_m + chainLen dist q rest < c →
      (narrRun cfg dist fine sectionLoc startLoc rest idx (some q) st).lines = st.lines ∧
        (narrRun cfg dist fine sectionLoc startLoc rest idx (some q) st).last_road =
          some R ∧
        (narrRun cfg dist fine sectionLoc startLoc rest idx (some q) st).last_locality =
          some L ∧
        (narrRun cfg dist fine sectionLoc startLoc rest idx (some q) st).last_ortsteil =
          none := by
  intro rest
  induction rest with
  | nil =>
    intro idx q st _ _ hroad hloc hort _ _
    exact ⟨rfl, hroad, hloc, hort⟩
  | cons p rest' ih =>
    intro idx q st hidx hfine hroad hloc hort hnext hlt
    obtain ⟨a, hfa, hra, hla, hoa⟩ := hfine idx (le_refl idx) (by simp)
    have hchain : chainLen dist q (p :: rest') = dist q p + chainLen dist p rest' := rfl
    have hch_nonneg := chainLen_nonneg dist hdist p rest'
    rw [hchain] at hlt
    have hnosec : ¬ (st.next_section_m ≤
        (st.cumulative_m : WithTop ℚ) + ((dist q p : ℚ) : WithTop ℚ)) := by
      rw [hnext, ← WithTop.coe_add, WithTop.coe_le_coe, not_le]
      linarith
    have hidx0 : idx ≠ 0 := Nat.pos_iff_ne_zero.mp hidx
    have hstep : narrStep cfg dist fine sectionLoc startLoc idx (some q) p st =
        { st with cumulative_m := st.cumulative_m + dist q p, last_road := some R } := by
      simp [narrStep, hfa, hra, hla, hoa, hidx, hidx0, hnosec, roadPhase, truthy,
        hroad, hR]
    simp only [narrRun]
    rw [hstep]
    have hres := ih (idx + 1) p
      { st with cumulative_m := st.cumulative_m + dist q p, last_road := some R }
      (Nat.succ_pos idx)
      (fun j h1 h2 => hfine j (by omega) (by simp at h2 ⊢; omega))
      rfl hloc hort hnext
      (by
        show st.cumulative_m + dist q p + chainLen dist p rest' < c
        linarith)
    exact hres

/-- Claim C4, counterexample: a two-point track with every lookup resolving
road `Main Street` and locality `Springfield`, start/finish enabled and a
3 km section length.  The narrative output carries the `- ` bullet prefix
on both lines, so it is not literally the two lines
`Start: …` / `Finish: …` the claim names. -/
theorem build_description_uniform_counterexample :
    (build_description (α := ℕ) ⟨.EN, true, 3, 12⟩ (fun _ _ => (100 : ℚ))
          (fun _ => .ok [("road", "Main Street"), ("city", "Springfield")])
          (fun _ => .error "e") (.ok [("city", "Springfield")]) [0, 1]).1 =
        ["- Start: Main Street (Place: Springfield)",
          "- Finish: Main Street (Place: Springfield)"] ∧
      (build_description (α := ℕ) ⟨.EN, true, 3, 12⟩ (fun _ _ => (100 : ℚ))
          (fun _ => .ok [("road", "Main Street"), ("city", "Springfield")])
          (fun _ => .error "e") (.ok [("city", "Springfield")]) [0, 1]).1 ≠
        ["Start: Main Street (Place: Springfield)",
          "Finish: Main Street (Place: Springfield)"] := by
  have h1 : (build_description (α := ℕ) ⟨.EN, true, 3, 12⟩ (fun _ _ => (100 : ℚ))
        (fun _ => .ok [("road", "Main Street"), ("city", "Springfield")])
        (fun _ => .error "e") (.ok [("city", "Springfield")]) [0, 1]).1 =
      ["- Start: Main Street (Place: Springfield)",
        "- Finish: Main Street (Place: Springfield)"] := by
    set_option maxRecDepth 16000 in
    norm_num +decide [build_description, narrRun, narrStep, initState, startPhase,
      roadPhase, sectionPhase, pick_road, pick_locality, pick_ortsteil, pickFirst,
      truthy, pyOr, startEntry, goalEntry, locLabel, ortLabel, WithTop.coe_le_coe]
  refine ⟨h1, ?_⟩
  rw [h1]
  decide

/-- Claim C4, amended: for every track shorter than one section length
whose every fine lookup resolves the same truthy road `R` and locality `L`
and no district, whose coarse start-refinement lookup also resolves `L` and
no district, with start/finish events enabled, English output and a
positive section length, the narrative output is exactly the two bulleted
lines `- Start: R (Place: L)` and `- Finish: R (Place: L)` in that order —
no road-change and no section lines. -/
theorem build_description_uniform_route {α : Type} (cfg : NarrCfg) (dist : α → α → ℚ)
    (fine sectionLoc : ℕ → Except String Address) (startLoc : Except String Address)
    (sampled : List α) (R L : String)
    (hlang : cfg.lang = .EN) (hsg : cfg.include_start_goal = true)
    (hzoom : cfg.locality_zoom ≠ 0) (hsec : 0 < cfg.section_km)
    (hR : R ≠ "") (hL : L ≠ "") (hdist : ∀ a b, 0 ≤ dist a b)
    (hne : sampled ≠ [])
    (hfine : ∀ i < sampled.length,
      ∃ a, fine i = .ok a ∧ pick_road a = some R ∧ pick_locality a = some L ∧
        pick_ortsteil a = none)
    (hstart : ∃ la, startLoc = .ok la ∧ pick_locality la = some L ∧
      pick_ortsteil la = none)
    (hshort : route_distance_m dist sampled < cfg.section_km * 1000) :
    (build_description cfg dist fine sectionLoc startLoc sampled).1 =
      ["- Start: " ++ R ++ " (Place: " ++ L ++ ")",
        "- Finish: " ++ R ++ " (Place: " ++ L ++ ")"] := by
  obtain ⟨lang, sg, km, zoom⟩ := cfg
  simp only at hlang hsg hsec hzoom
  subst hlang hsg
  cases sampled with
  | nil => exact absurd rfl hne
  | cons p0 rest =>
    obtain ⟨a0, hf0, hr0, hl0, ho0⟩ := hfine 0 (by simp)
    obtain ⟨la, hsl, hll, hlo⟩ := hstart
    subst hsl
    have hc : (0 : ℚ) < km * 1000 := mul_pos hsec (by norm_num)
    have hns : ¬ ((km * 1000 : ℚ) ≤ (0 : ℚ)) := not_le.mpr hc
    have hnsW : ¬ ((km : WithTop ℚ) * 1000 ≤ (0 : WithTop ℚ)) := by
      have h1 : ((km : WithTop ℚ) * 1000) = ((km * 1000 : ℚ) : WithTop ℚ) := by
        norm_cast
      rw [h1, show (0 : WithTop ℚ) = ((0 : ℚ) : WithTop ℚ) from rfl, WithTop.coe_le_coe]
      exact hns
    have hstep0 : narrStep (α := α) ⟨.EN, true, km, zoom⟩ dist fine sectionLoc
        (.ok la) 0 none p0 (initState ⟨.EN, true, km, zoom⟩) =
        { last_road := some R
          last_locality := some L
          last_ortsteil := none
          cumulative_m := 0
          next_section_m := ((km * 1000 : ℚ) : WithTop ℚ)
          lines := [startEntry .EN (some R) (some L) none] } := by
      simp [narrStep, hf0, hr0, hl0, ho0, initState, hsec, hns, hnsW, startPhase, hzoom,
        hll, hlo, pyOr, truthy, hR, hL, WithTop.coe_le_coe]
    have hrest : route_distance_m dist (p0 :: rest) = chainLen dist p0 rest := rfl
    have hrun := narrRun_uniform_aux ⟨.EN, true, km, zoom⟩ dist fine sectionLoc
      (.ok la) R L hR hdist (km * 1000) rest 1 p0
      { last_road := some R
        last_locality := some L
        last_ortsteil := none
        cumulative_m := 0
        next_section_m := ((km * 1000 : ℚ) : WithTop ℚ)
        lines := [startEntry .EN (some R) (some L) none] }
      (by omega)
      (fun j h1 h2 => hfine j (by simp; omega))
      rfl rfl rfl rfl
      (by
        show (0 : ℚ) + chainLen dist p0 rest < km * 1000
        rw [hrest] at hshort
        linarith)
    simp only [build_description, narrRun]
    rw [hstep0]
    obtain ⟨hlines, hrd, hlc, hot⟩ := hrun
    rw [if_pos (⟨trivial, rfl⟩ : True ∧ ((p0 :: rest).isEmpty = false))]
    rw [hlines, goalEntry_uniform R L hR hL _ hrd hlc hot]
    simp [startEntry_uniform R L hR hL]

/-- Witness for the amended C4 at a concrete three-point track. -/
theorem build_description_uniform_route_witness :
    (build_description (α := ℕ) ⟨.EN, true, 3, 12⟩ (fun _ _ => (100 : ℚ))
        (fun _ => .ok [("road", "B1"), ("city", "Roma")]) (fun _ => .error "e")
        (.ok [("city", "Roma")]) [0, 1, 2]).1 =
      ["- Start: " ++ "B1" ++ " (Place: " ++ "Roma" ++ ")",
        "- Finish: " ++ "B1" ++ " (Place: " ++ "Roma" ++ ")"] :=
  build_description_uniform_route ⟨.EN, true, 3, 12⟩ (fun _ _ => (100 : ℚ))
    (fun _ => .ok [("road", "B1"), ("city", "Roma")]) (fun _ => .error "e")
    (.ok [("city", "Roma")]) [0, 1, 2] "B1" "Roma" rfl rfl (by decide) (by norm_num)
    (by decide) (by decide) (fun _ _ => by norm_num) (by decide)
    (fun i _ => ⟨[("road", "B1"), ("city", "Roma")], rfl, rfl, rfl, rfl⟩)
    ⟨[("city", "Roma")], rfl, rfl, rfl⟩
    (by norm_num [route_distance_m, chainLen])

/-- Witness for C10 at a concrete observation stream. -/
theorem fieldSummary_invariants_witness :
    (applyAll [(.pint 3, none), (.pstr "x", some "m")] ({} : FieldSummary)).Inv :=
  fieldSummary_invariants [(.pint 3, none), (.pstr "x", some "m")]

end Track2Text
